import Mathlib

/-!
Verification development for the zimtohrli perceptual audio metric binding.

The repository exposes a psychoacoustic engine: audio signals are converted
into perceptual spectrograms by a cochlear filter bank, and a perceptual
distance between two spectrograms is computed with dynamic time warping
followed by a windowed structural-similarity (NSIM) statistic.  The Rust
source under `src/lib.rs` declares the engine interface and implements the
safe slice accessors `values` / `values_mut`; the engine body itself lives in
a vendored native library, so those parts are modelled here from the
specification's description of their behaviour.  Sample values and scores are
modelled with rationals (exact arithmetic in place of `f32`).
-/

namespace Zimtohrli

/-- Modelled from the spec: `sample_rate()` (vendored native code) — the fixed
expected input sample rate, 48000 Hz. -/
def sample_rate : ℚ := 48000

/-- Modelled from the spec: `num_channels()` (vendored native code) — the fixed
number of frequency channels (rotators) in the spectrogram, 128. -/
def num_channels : ℕ := 128

/-- Modelled from the spec: the analyzer (`ZimtohrliWrapper`, vendored native
code) — engine configuration read at analysis and scoring time: NSIM window
sizes, perceptual sample rate, and loudness calibration reference. -/
structure Analyzer where
  nsim_step_window : ℕ
  nsim_channel_window : ℕ
  perceptual_sample_rate : ℚ
  full_scale_sine_db : ℚ

/-- Modelled from the spec: `new_zimtohrli()` (vendored native code) — default
configuration: step window 8, channel window 5, perceptual sample rate ≈85 Hz,
full-scale sine level 78.3 dB. -/
def new_zimtohrli : Analyzer :=
  { nsim_step_window := 8
    nsim_channel_window := 5
    perceptual_sample_rate := 85
    full_scale_sine_db := 783 / 10 }

/-- Modelled from the spec: `set_nsim_step_window` (vendored native code) —
updates only the time-axis NSIM window size of the configuration. -/
def set_nsim_step_window (z : Analyzer) (val : ℕ) : Analyzer :=
  { z with nsim_step_window := val }

/-- Modelled from the spec: `set_nsim_channel_window` (vendored native code) —
updates only the frequency-axis NSIM window size of the configuration. -/
def set_nsim_channel_window (z : Analyzer) (val : ℕ) : Analyzer :=
  { z with nsim_channel_window := val }

/-- Modelled from the spec: the spectrogram buffer (`SpectrogramWrapper`,
vendored native code) — a dense `num_steps × num_dims` matrix of energy
values stored row-major in a flat buffer. -/
structure Spectrogram where
  num_steps : ℕ
  num_dims : ℕ
  buffer : List ℚ

/-- Modelled from the spec: `SpectrogramWrapper::size` (vendored native code) —
the total number of values held by the spectrogram buffer. -/
def Spectrogram.size (s : Spectrogram) : ℕ := s.buffer.length

/-- Modelled from the spec: `SpectrogramWrapper::max` (vendored native code) —
the largest absolute value across all cells. -/
def Spectrogram.max (s : Spectrogram) : ℚ :=
  (s.buffer.map (fun x => |x|)).foldr Max.max 0

/-- Modelled from the spec: `SpectrogramWrapper::rescale` (vendored native
code) — multiplies every cell by the factor `f` in place. -/
def rescale (f : ℚ) (s : Spectrogram) : Spectrogram :=
  { s with buffer := s.buffer.map (fun x => f * x) }

/-- Modelled from the spec: `new_spectrogram` (vendored native code) — a fresh
spectrogram with the given number of steps and `num_channels()` dimensions. -/
def new_spectrogram (num_steps : ℕ) : Spectrogram :=
  { num_steps := num_steps
    num_dims := num_channels
    buffer := List.replicate (num_steps * num_channels) 0 }

/-- The Rust accessor `values` (src/lib.rs): returns the empty slice when
`size` is zero, otherwise the `size`-element view of the underlying buffer
(`slice::from_raw_parts(values_ptr(), size)`). -/
def values (s : Spectrogram) : List ℚ :=
  if s.size = 0 then [] else s.buffer.take s.size

/-- The Rust accessor `values_mut` (src/lib.rs): returns an empty slice built
from a dangling pointer when `size` is zero (touching no buffer memory),
otherwise the `size`-element mutable view of the underlying buffer. -/
def values_mut (s : Spectrogram) : List ℚ :=
  if s.size = 0 then [] else s.buffer.take s.size

/-- Modelled from the spec: `spectrogram_steps` (vendored native code) — the
number of output time steps, `round(num_samples * perceptual_sample_rate /
sample_rate)`, which is zero when `num_samples` is zero. -/
def spectrogram_steps (z : Analyzer) (num_samples : ℕ) : ℕ :=
  (round ((num_samples : ℚ) * z.perceptual_sample_rate / sample_rate)).toNat

/-- Modelled from the spec: the energy envelope of one rotator (resonant
cochlear filter) of the bank, driven by the prefix of the signal up to the
sample index of the current output step.  The exact filter design (center
frequency spacing, envelope extraction, loudness calibration) lives in the
vendored native library; the model keeps the spec-fixed structure: a
per-channel filter driven by the input whose output energy is zero on silent
input. -/
def rotatorEnergy (c : ℕ) (signal : List ℚ) (upto : ℕ) : ℚ :=
  |(signal.take upto).foldl (fun acc x => (c + 1 : ℚ) / (c + 2) * acc + x) 0|

/-- Modelled from the spec: `analyze` (vendored native code) — runs the
rotator bank over the signal and downsamples the per-channel energy envelopes
to `spectrogram_steps` time steps, producing a `steps × num_channels`
spectrogram stored row-major. -/
def analyze (z : Analyzer) (signal : List ℚ) : Spectrogram :=
  let steps := spectrogram_steps z signal.length
  { num_steps := steps
    num_dims := num_channels
    buffer :=
      (List.range (steps * num_channels)).map fun i =>
        rotatorEnergy (i % num_channels) signal
          ((i / num_channels + 1) * signal.length / steps) }

/-- Modelled from the spec: error taxonomy — `InvalidInput` for mismatched
channel dimensionality between the two spectrograms passed to `distance`. -/
inductive ZimtError where
  | invalidInput
deriving DecidableEq

/-- Modelled from the spec: the row view of a spectrogram, `steps` rows of
`dims` channels, read row-major from the flat buffer. -/
def toRows (s : Spectrogram) : List (List ℚ) :=
  (List.range s.num_steps).map fun t =>
    (List.range s.num_dims).map fun c => s.buffer.getD (t * s.num_dims + c) 0

/-- Modelled from the spec: loudness normalization applied by `distance` to
each input — uniform rescale so that the largest absolute value becomes 1,
left untouched when the spectrogram is entirely silent. -/
def normalize (s : Spectrogram) : Spectrogram :=
  if s.max = 0 then s else rescale (1 / s.max) s

/-- Modelled from the spec: per-step DTW cost between time index `i` of one
spectrogram and `j` of the other — the sum of squared differences across all
channels of the two feature vectors. -/
def stepCost (a b : List (List ℚ)) (i j : ℕ) : ℚ :=
  (((a.getD i []).zip (b.getD j [])).map fun p => (p.1 - p.2) ^ 2).sum

/-- Modelled from the spec: the DTW cumulative cost,
`D[i][j] = cost(i,j) + min(D[i-1][j], D[i][j-1], D[i-1][j-1])` with
`D[0][0] = cost(0,0)` and borders initialized by cumulative sums. -/
def dtwD (a b : List (List ℚ)) : ℕ → ℕ → ℚ
  | 0, 0 => stepCost a b 0 0
  | 0, j + 1 => dtwD a b 0 j + stepCost a b 0 (j + 1)
  | i + 1, 0 => dtwD a b i 0 + stepCost a b (i + 1) 0
  | i + 1, j + 1 =>
    stepCost a b (i + 1) (j + 1) +
      min (dtwD a b i (j + 1)) (min (dtwD a b (i + 1) j) (dtwD a b i j))
termination_by i j => i + j

/-- Modelled from the spec: the optimal monotone DTW path, recovered from the
cumulative cost matrix by backtracking from `(i, j)` to `(0, 0)`; emitted in
reverse order (end of path first). -/
def dtwPath (a b : List (List ℚ)) : ℕ → ℕ → List (ℕ × ℕ)
  | 0, 0 => [(0, 0)]
  | 0, j + 1 => (0, j + 1) :: dtwPath a b 0 j
  | i + 1, 0 => (i + 1, 0) :: dtwPath a b i 0
  | i + 1, j + 1 =>
    (i + 1, j + 1) ::
      (if dtwD a b i j ≤ dtwD a b i (j + 1) ∧ dtwD a b i j ≤ dtwD a b (i + 1) j
        then dtwPath a b i j
        else if dtwD a b i (j + 1) ≤ dtwD a b (i + 1) j
          then dtwPath a b i (j + 1)
          else dtwPath a b (i + 1) j)
termination_by i j => i + j

/-- Modelled from the spec: NSIM stabilizing constant for the luminance term
(small positive constant keeping the score well-defined on silent patches). -/
def stabilityC1 : ℚ := 1 / 10000

/-- Modelled from the spec: NSIM stabilizing constant for the
contrast/structure term. -/
def stabilityC2 : ℚ := 1 / 10000

/-- Mean of a list of rationals (zero on the empty list, by the rational
convention `x / 0 = 0`). -/
def mean (l : List ℚ) : ℚ := l.sum / l.length

/-- Variance of a list of rationals about its mean. -/
def variance (l : List ℚ) : ℚ :=
  ((l.map fun x => (x - mean l) ^ 2).sum) / l.length

/-- Covariance of two equally indexed lists of rationals. -/
def covariance (p q : List ℚ) : ℚ :=
  (((p.zip q).map fun ab => (ab.1 - mean p) * (ab.2 - mean q)).sum) / p.length

/-- Modelled from the spec: the local NSIM score of two aligned window
patches — the standard three-term structural-similarity product (luminance ×
contrast × structure, each stabilized), written in the usual square-root-free
combined form. -/
def localScore (pa pb : List ℚ) : ℚ :=
  ((2 * mean pa * mean pb + stabilityC1) * (2 * covariance pa pb + stabilityC2)) /
    (((mean pa) ^ 2 + (mean pb) ^ 2 + stabilityC1) *
      (variance pa + variance pb + stabilityC2))

/-- Modelled from the spec: the cells of one window patch of an aligned
matrix, clipped to the available extent at the grid boundary (the documented
boundary policy of this model). -/
def patchCells (m : List (List ℚ)) (rowIdx colIdx : List ℕ) : List ℚ :=
  rowIdx.flatMap fun i => colIdx.map fun j => (m.getD i []).getD j 0

/-- Modelled from the spec: the global NSIM similarity — the mean of the
local scores of a `nsim_step_window × nsim_channel_window` window slid over
every position of the aligned time-channel grid, windows clipped at the
boundary. -/
def nsim (z : Analyzer) (ma mb : List (List ℚ)) (dims : ℕ) : ℚ :=
  let steps := ma.length
  let positions :=
    (List.range steps).flatMap fun t => (List.range dims).map fun c => (t, c)
  mean (positions.map fun tc =>
    let rowIdx :=
      ((List.range z.nsim_step_window).map fun d => tc.1 + d).filter (· < steps)
    let colIdx :=
      ((List.range z.nsim_channel_window).map fun d => tc.2 + d).filter (· < dims)
    localScore (patchCells ma rowIdx colIdx) (patchCells mb rowIdx colIdx))

/-- Clamp a rational to the closed unit interval. -/
def clamp01 (x : ℚ) : ℚ := Max.max 0 (Min.min 1 x)

/-- Modelled from the spec: `distance` (vendored native code) — fails with
`InvalidInput` on mismatched channel dimensionality; returns the maximal
distance 1 when either spectrogram has zero steps (empty alignment);
otherwise normalizes both inputs, aligns them with DTW, scores the aligned
pair with NSIM and reports `1 − similarity` clamped to `[0, 1]`. -/
def distance (z : Analyzer) (a b : Spectrogram) : Except ZimtError ℚ :=
  if a.num_dims = b.num_dims then
    if a.num_steps = 0 ∨ b.num_steps = 0 then .ok 1
    else
      let ma := toRows (normalize a)
      let mb := toRows (normalize b)
      let path := (dtwPath ma mb (a.num_steps - 1) (b.num_steps - 1)).reverse
      let alignedA := path.map fun p => ma.getD p.1 []
      let alignedB := path.map fun p => mb.getD p.2 []
      .ok (clamp01 (1 - nsim z alignedA alignedB a.num_dims))
  else .error .invalidInput

/-- Modelled from the spec: an analysis session — the analyzer configuration
together with the spectrograms produced so far. -/
structure World where
  analyzer : Analyzer
  produced : List Spectrogram

/-- Modelled from the spec: performing one analysis appends its spectrogram
to the session's produced list. -/
def doAnalyze (w : World) (signal : List ℚ) : World :=
  { w with produced := w.produced ++ [analyze w.analyzer signal] }

/-- Modelled from the spec: applying `set_nsim_step_window` in a session
touches only the analyzer configuration. -/
def doSetStepWindow (w : World) (val : ℕ) : World :=
  { w with analyzer := set_nsim_step_window w.analyzer val }

/-- Modelled from the spec: applying `set_nsim_channel_window` in a session
touches only the analyzer configuration. -/
def doSetChannelWindow (w : World) (val : ℕ) : World :=
  { w with analyzer := set_nsim_channel_window w.analyzer val }

lemma clamp01_nonneg (x : ℚ) : 0 ≤ clamp01 x := le_max_left _ _

lemma clamp01_le_one (x : ℚ) : clamp01 x ≤ 1 :=
  max_le (by norm_num) (min_le_left _ _)

/-- C8: `sample_rate()` always returns exactly 48000 and `num_channels()`
always returns exactly 128; both are fixed constants. -/
theorem constants_fixed : sample_rate = 48000 ∧ num_channels = 128 :=
  ⟨rfl, rfl⟩

/-- C2: `distance` on two spectrograms with mismatched channel
dimensionality fails with `InvalidInput` and never computes a value. -/
theorem distance_mismatched_dims (z : Analyzer) (a b : Spectrogram)
    (h : a.num_dims ≠ b.num_dims) :
    distance z a b = .error .invalidInput := by
  simp [distance, h]

/-- Witness for C2 at a concrete mismatched pair (2 dims versus 3 dims). -/
theorem distance_mismatched_dims_witness :
    (Spectrogram.mk 1 2 [0, 0]).num_dims ≠ (Spectrogram.mk 1 3 [0, 0, 0]).num_dims ∧
      distance new_zimtohrli (Spectrogram.mk 1 2 [0, 0]) (Spectrogram.mk 1 3 [0, 0, 0]) =
        .error .invalidInput :=
  ⟨by decide, distance_mismatched_dims _ _ _ (by decide)⟩

/-- C4: every spectrogram produced by `analyze` has `num_dims = num_channels`
and `size = num_steps * num_dims`; the shape is preserved by `rescale` (the
only mutating operation), and `new_spectrogram` satisfies the same shape
invariant. -/
theorem analyze_shape_invariant (z : Analyzer) (signal : List ℚ) (f : ℚ) (n : ℕ) :
    (analyze z signal).num_dims = num_channels ∧
      (analyze z signal).size = (analyze z signal).num_steps * (analyze z signal).num_dims ∧
      (rescale f (analyze z signal)).num_steps = (analyze z signal).num_steps ∧
      (rescale f (analyze z signal)).num_dims = (analyze z signal).num_dims ∧
      (rescale f (analyze z signal)).size = (analyze z signal).size ∧
      (new_spectrogram n).num_dims = num_channels ∧
      (new_spectrogram n).size = (new_spectrogram n).num_steps * (new_spectrogram n).num_dims := by
  refine ⟨rfl, ?_, rfl, rfl, ?_, rfl, ?_⟩ <;>
    simp [analyze, rescale, new_spectrogram, Spectrogram.size]

/-- C9: applying either NSIM window setter in a session leaves every
previously produced spectrogram untouched, and the setters do not influence
`analyze` at all (window configuration is read only at scoring time). -/
theorem setters_do_not_affect_produced (w : World) (v v' : ℕ) (signal : List ℚ) :
    (doSetStepWindow w v).produced = w.produced ∧
      (doSetChannelWindow w v').produced = w.produced ∧
      analyze (set_nsim_step_window w.analyzer v) signal = analyze w.analyzer signal ∧
      analyze (set_nsim_channel_window w.analyzer v') signal = analyze w.analyzer signal :=
  ⟨rfl, rfl, rfl, rfl⟩

/-- C10: `values` and `values_mut` both return views whose length equals
`size`, and when `size = 0` both return the empty view without touching the
underlying buffer. -/
theorem values_length_eq_size (s : Spectrogram) :
    (values s).length = s.size ∧ (values_mut s).length = s.size ∧
      (s.size = 0 → values s = [] ∧ values_mut s = []) := by
  by_cases h : s.size = 0
  · have hb : s.buffer = [] := List.length_eq_zero.mp h
    simp [values, values_mut, h, hb, Spectrogram.size]
  · have hb : s.buffer ≠ [] := fun e => h (by simp [Spectrogram.size, e])
    simp [values, values_mut, h, hb, Spectrogram.size]

/-- Witness for C10 at a concrete zero-size spectrogram. -/
theorem values_length_eq_size_witness :
    (Spectrogram.mk 0 5 []).size = 0 ∧
      values (Spectrogram.mk 0 5 []) = [] ∧ values_mut (Spectrogram.mk 0 5 []) = [] :=
  ⟨rfl, (values_length_eq_size (Spectrogram.mk 0 5 [])).2.2 rfl⟩

/-- C1: on two spectrograms of equal channel dimensionality, each with at
least one step, `distance` succeeds and returns a value in `[0, 1]`. -/
theorem distance_in_unit_interval (z : Analyzer) (a b : Spectrogram)
    (hd : a.num_dims = b.num_dims) (ha : 0 < a.num_steps) (hb : 0 < b.num_steps) :
    ∃ d, distance z a b = .ok d ∧ 0 ≤ d ∧ d ≤ 1 := by
  have h0 : ¬(a.num_steps = 0 ∨ b.num_steps = 0) := by omega
  unfold distance
  rw [if_pos hd, if_neg h0]
  exact ⟨_, rfl, clamp01_nonneg _, clamp01_le_one _⟩

/-- Witness for C1 at a concrete pair of one-step two-channel spectrograms. -/
theorem distance_in_unit_interval_witness :
    (Spectrogram.mk 1 2 [1, 2]).num_dims = (Spectrogram.mk 1 2 [3, 4]).num_dims ∧
      0 < (Spectrogram.mk 1 2 [1, 2]).num_steps ∧
      0 < (Spectrogram.mk 1 2 [3, 4]).num_steps ∧
      ∃ d, distance new_zimtohrli (Spectrogram.mk 1 2 [1, 2]) (Spectrogram.mk 1 2 [3, 4]) = .ok d ∧
        0 ≤ d ∧ d ≤ 1 :=
  ⟨by decide, by decide, by decide,
    distance_in_unit_interval new_zimtohrli _ _ (by decide) (by decide) (by decide)⟩

/-- C3: `spectrogram_steps 0 = 0`; `spectrogram_steps` is monotone
non-decreasing in the sample count; and in general it equals
`round(num_samples * perceptual_sample_rate / sample_rate)`. -/
theorem spectrogram_steps_spec (z : Analyzer) (n m : ℕ) (hnm : n ≤ m)
    (hpsr : 0 ≤ z.perceptual_sample_rate) :
    spectrogram_steps z 0 = 0 ∧
      spectrogram_steps z n ≤ spectrogram_steps z m ∧
      (spectrogram_steps z n : ℤ) =
        round ((n : ℚ) * z.perceptual_sample_rate / sample_rate) := by
  have hsr : (0 : ℚ) < sample_rate := by norm_num [sample_rate]
  have hle : (n : ℚ) * z.perceptual_sample_rate / sample_rate ≤
      (m : ℚ) * z.perceptual_sample_rate / sample_rate := by
    have hnum : (n : ℚ) * z.perceptual_sample_rate ≤ (m : ℚ) * z.perceptual_sample_rate :=
      mul_le_mul_of_nonneg_right (by exact_mod_cast hnm) hpsr
    exact (div_le_div_iff_of_pos_right hsr).mpr hnum
  refine ⟨?_, ?_, ?_⟩
  · simp [spectrogram_steps]
  · exact Int.toNat_le_toNat (by rw [round_eq, round_eq]; exact Int.floor_le_floor (by linarith))
  · exact Int.toNat_of_nonneg (by
      rw [round_eq]
      have hx : 0 ≤ (n : ℚ) * z.perceptual_sample_rate / sample_rate :=
        div_nonneg (mul_nonneg (Nat.cast_nonneg n) hpsr) (le_of_lt hsr)
      exact Int.floor_nonneg.mpr (by linarith))

/-- Witness for C3 at the default analyzer with sample counts 100 ≤ 48000. -/
theorem spectrogram_steps_spec_witness :
    (100 : ℕ) ≤ 48000 ∧ 0 ≤ new_zimtohrli.perceptual_sample_rate ∧
      (spectrogram_steps new_zimtohrli 0 = 0 ∧
        spectrogram_steps new_zimtohrli 100 ≤ spectrogram_steps new_zimtohrli 48000 ∧
        (spectrogram_steps new_zimtohrli 100 : ℤ) =
          round ((100 : ℚ) * new_zimtohrli.perceptual_sample_rate / sample_rate)) :=
  ⟨by norm_num, by norm_num [new_zimtohrli],
    spectrogram_steps_spec new_zimtohrli 100 48000 (by norm_num) (by norm_num [new_zimtohrli])⟩

/-- Counterexample for C5 as frozen: a zero-step spectrogram paired with a
spectrogram of different channel dimensionality makes `distance` fail with
`InvalidInput` instead of returning 1. -/
theorem distance_zero_steps_counterexample :
    distance new_zimtohrli (Spectrogram.mk 0 1 []) (Spectrogram.mk 1 2 [0, 0]) ≠ .ok 1 := by
  simp [distance]

/-- C5 (amended): when the two spectrograms have equal channel dimensionality
and either has zero steps, the alignment is empty and `distance` returns the
maximal value 1. -/
theorem distance_zero_steps (z : Analyzer) (a b : Spectrogram)
    (hd : a.num_dims = b.num_dims) (h0 : a.num_steps = 0 ∨ b.num_steps = 0) :
    distance z a b = .ok 1 := by
  simp [distance, hd, h0]

/-- Witness for amended C5 at a concrete zero-step pair of equal dims. -/
theorem distance_zero_steps_witness :
    (Spectrogram.mk 0 2 []).num_dims = (Spectrogram.mk 1 2 [0, 0]).num_dims ∧
      ((Spectrogram.mk 0 2 []).num_steps = 0 ∨ (Spectrogram.mk 1 2 [0, 0]).num_steps = 0) ∧
      distance new_zimtohrli (Spectrogram.mk 0 2 []) (Spectrogram.mk 1 2 [0, 0]) = .ok 1 :=
  ⟨by decide, by decide, distance_zero_steps _ _ _ (by decide) (by decide)⟩

lemma foldr_max_map_mul (c : ℚ) (hc : 0 ≤ c) (l : List ℚ) :
    ((l.map fun x => c * x).foldr Max.max 0) = c * l.foldr Max.max 0 := by
  induction l with
  | nil => simp
  | cons x xs ih => simp [ih, mul_max_of_nonneg _ _ hc]

/-- Counterexample for C7 as frozen: rescaling by a negative factor does not
scale `max` (the largest absolute value) by that factor — at `f = -1` the
maximum stays 1 while `f * max` would be `-1`. -/
theorem rescale_max_counterexample :
    Spectrogram.max (rescale (-1) (Spectrogram.mk 1 1 [1])) ≠
      (-1) * Spectrogram.max (Spectrogram.mk 1 1 [1]) := by
  norm_num [Spectrogram.max, rescale]

/-- C7 (amended): `rescale f` multiplies every cell by `f` in place, after
which `max` (the largest absolute value) equals `|f|` times the previous
`max`; `rescale 1` leaves the spectrogram unchanged. -/
theorem rescale_max (f : ℚ) (s : Spectrogram) :
    Spectrogram.max (rescale f s) = |f| * Spectrogram.max s ∧ rescale 1 s = s := by
  constructor
  · have h1 : (rescale f s).buffer.map (fun x => |x|) =
        (s.buffer.map fun x => |x|).map fun x => |f| * x := by
      simp [rescale, List.map_map, Function.comp, abs_mul]
    rw [Spectrogram.max, h1, foldr_max_map_mul _ (abs_nonneg f)]
    rfl
  · cases s
    simp [rescale]

lemma foldl_decay_zero (d : ℚ) :
    ∀ m : ℕ, (List.replicate m (0 : ℚ)).foldl (fun acc x => d * acc + x) 0 = 0
  | 0 => rfl
  | m + 1 => by
    rw [List.replicate_succ, List.foldl_cons]
    simpa using foldl_decay_zero d m

lemma rotatorEnergy_replicate_zero (c k n : ℕ) :
    rotatorEnergy c (List.replicate n 0) k = 0 := by
  rw [rotatorEnergy, List.take_replicate, foldl_decay_zero, abs_zero]

lemma analyze_silence_buffer (z : Analyzer) (n : ℕ) :
    ∀ x ∈ (analyze z (List.replicate n 0)).buffer, x = 0 := by
  intro x hx
  simp only [analyze, List.mem_map] at hx
  obtain ⟨i, -, hi⟩ := hx
  rw [← hi, rotatorEnergy_replicate_zero]

lemma foldr_max_abs_zero (l : List ℚ) (h : ∀ x ∈ l, x = 0) :
    (l.map fun x => |x|).foldr Max.max 0 = 0 := by
  induction l with
  | nil => rfl
  | cons x xs ih =>
    rw [List.map_cons, List.foldr_cons, h x (by simp),
      ih fun y hy => h y (by simp [hy])]
    simp

lemma max_eq_zero_of_buffer_zero (s : Spectrogram) (h : ∀ x ∈ s.buffer, x = 0) :
    s.max = 0 :=
  foldr_max_abs_zero s.buffer h

lemma getD_prop {α : Type} (p : α → Prop) (l : List α) (d : α) (hd : p d)
    (h : ∀ x ∈ l, p x) (i : ℕ) : p (l.getD i d) := by
  rw [List.getD_eq_getElem?_getD]
  cases hv : l[i]? with
  | none => simpa using hd
  | some v => simpa using h v (List.getElem?_mem hv)

lemma toRows_all_zero (s : Spectrogram) (h : ∀ x ∈ s.buffer, x = 0) :
    ∀ r ∈ toRows s, ∀ x ∈ r, x = 0 := by
  intro r hr x hx
  simp only [toRows, List.mem_map] at hr
  obtain ⟨t, -, ht⟩ := hr
  rw [← ht] at hx
  simp only [List.mem_map] at hx
  obtain ⟨c, -, hc⟩ := hx
  rw [← hc]
  exact getD_prop (fun y => y = 0) s.buffer 0 rfl h _

lemma patchCells_all_zero (m : List (List ℚ)) (rowIdx colIdx : List ℕ)
    (hm : ∀ r ∈ m, ∀ x ∈ r, x = 0) :
    ∀ x ∈ patchCells m rowIdx colIdx, x = 0 := by
  intro x hx
  simp only [patchCells, List.mem_flatMap, List.mem_map] at hx
  obtain ⟨i, -, j, -, hj⟩ := hx
  rw [← hj]
  exact getD_prop (fun y => y = 0) _ 0 rfl
    (getD_prop (fun r => ∀ y ∈ r, y = 0) m [] (by simp) hm i) j

lemma mean_of_all_zero (l : List ℚ) (h : ∀ x ∈ l, x = 0) : mean l = 0 := by
  rw [mean, List.sum_eq_zero h, zero_div]

lemma variance_of_all_zero (l : List ℚ) (h : ∀ x ∈ l, x = 0) : variance l = 0 := by
  rw [variance, List.sum_eq_zero, zero_div]
  intro y hy
  simp only [List.mem_map] at hy
  obtain ⟨x, hx, hxy⟩ := hy
  rw [← hxy, h x hx, mean_of_all_zero l h]
  ring

lemma covariance_of_all_zero (p q : List ℚ) (hp : ∀ x ∈ p, x = 0)
    (hq : ∀ x ∈ q, x = 0) : covariance p q = 0 := by
  rw [covariance, List.sum_eq_zero, zero_div]
  intro y hy
  simp only [List.mem_map] at hy
  obtain ⟨ab, hab, haby⟩ := hy
  have hmem := List.of_mem_zip hab
  rw [← haby, hp ab.1 hmem.1, hq ab.2 hmem.2, mean_of_all_zero p hp]
  ring

lemma localScore_of_all_zero (pa pb : List ℚ) (hpa : ∀ x ∈ pa, x = 0)
    (hpb : ∀ x ∈ pb, x = 0) : localScore pa pb = 1 := by
  rw [localScore, mean_of_all_zero pa hpa, mean_of_all_zero pb hpb,
    variance_of_all_zero pa hpa, variance_of_all_zero pb hpb,
    covariance_of_all_zero pa pb hpa hpb]
  norm_num [stabilityC1, stabilityC2]

lemma mean_of_all_one (l : List ℚ) (h : ∀ x ∈ l, x = 1) (hne : l ≠ []) :
    mean l = 1 := by
  rw [mean, List.sum_eq_card_nsmul l 1 h]
  have hlen : (l.length : ℚ) ≠ 0 := by
    simpa [List.length_eq_zero] using hne
  simp [nsmul_eq_mul, div_self hlen]

lemma dtwPath_ne_nil (a b : List (List ℚ)) (i j : ℕ) : dtwPath a b i j ≠ [] := by
  cases i <;> cases j <;> simp [dtwPath]

lemma nsim_all_zero (z : Analyzer) (ma mb : List (List ℚ)) (dims : ℕ)
    (hma : ∀ r ∈ ma, ∀ x ∈ r, x = 0) (hmb : ∀ r ∈ mb, ∀ x ∈ r, x = 0)
    (hL : ma.length ≠ 0) (hdims : dims ≠ 0) : nsim z ma mb dims = 1 := by
  rw [nsim]
  apply mean_of_all_one
  · intro x hx
    simp only [List.mem_map] at hx
    obtain ⟨tc, -, htc⟩ := hx
    rw [← htc]
    exact localScore_of_all_zero _ _
      (patchCells_all_zero ma _ _ hma) (patchCells_all_zero mb _ _ hmb)
  · have : ((0 : ℕ), (0 : ℕ)) ∈
        (List.range ma.length).flatMap fun t => (List.range dims).map fun c => (t, c) := by
      simp only [List.mem_flatMap, List.mem_map, List.mem_range]
      exact ⟨0, Nat.pos_of_ne_zero hL, 0, Nat.pos_of_ne_zero hdims, rfl⟩
    intro hcon
    rw [List.map_eq_nil_iff] at hcon
    rw [hcon] at this
    exact List.not_mem_nil _ this

lemma aligned_distance_zero (z : Analyzer) (ma mb : List (List ℚ)) (i j dims : ℕ)
    (hma : ∀ r ∈ ma, ∀ x ∈ r, x = 0) (hmb : ∀ r ∈ mb, ∀ x ∈ r, x = 0)
    (hdims : dims ≠ 0) :
    clamp01 (1 - nsim z
      (((dtwPath ma mb i j).reverse).map fun p => ma.getD p.1 [])
      (((dtwPath ma mb i j).reverse).map fun p => mb.getD p.2 []) dims) = 0 := by
  have hrows : ∀ (m : List (List ℚ)), (∀ r ∈ m, ∀ x ∈ r, x = 0) →
      ∀ r ∈ ((dtwPath ma mb i j).reverse).map fun p => m.getD p.1 [], ∀ x ∈ r, x = 0 := by
    intro m hm r hr
    simp only [List.mem_map] at hr
    obtain ⟨p, -, hp⟩ := hr
    rw [← hp]
    exact getD_prop (fun row => ∀ x ∈ row, x = 0) m [] (by simp) hm p.1
  have hrowsB : ∀ r ∈ ((dtwPath ma mb i j).reverse).map fun p => mb.getD p.2 [],
      ∀ x ∈ r, x = 0 := by
    intro r hr
    simp only [List.mem_map] at hr
    obtain ⟨p, -, hp⟩ := hr
    rw [← hp]
    exact getD_prop (fun row => ∀ x ∈ row, x = 0) mb [] (by simp) hmb p.2
  have hlen : (((dtwPath ma mb i j).reverse).map fun p => ma.getD p.1 []).length ≠ 0 := by
    simp only [List.length_map, List.length_reverse]
    intro hcon
    exact dtwPath_ne_nil ma mb i j (List.length_eq_zero.mp hcon)
  rw [nsim_all_zero z _ _ dims (hrows ma hma) hrowsB hlen hdims]
  norm_num [clamp01]

lemma distance_all_zero (z : Analyzer) (a b : Spectrogram)
    (hd : a.num_dims = b.num_dims) (ha : a.num_steps ≠ 0) (hb : b.num_steps ≠ 0)
    (hdims : a.num_dims ≠ 0)
    (haz : ∀ x ∈ a.buffer, x = 0) (hbz : ∀ x ∈ b.buffer, x = 0) :
    distance z a b = .ok 0 := by
  have h0 : ¬(a.num_steps = 0 ∨ b.num_steps = 0) := by tauto
  have hna : normalize a = a := by
    rw [normalize, if_pos (max_eq_zero_of_buffer_zero a haz)]
  have hnb : normalize b = b := by
    rw [normalize, if_pos (max_eq_zero_of_buffer_zero b hbz)]
  unfold distance
  rw [if_pos hd, if_neg h0]
  show Except.ok (clamp01 (1 - nsim z _ _ a.num_dims)) = Except.ok 0
  rw [hna, hnb]
  exact congrArg Except.ok
    (aligned_distance_zero z (toRows a) (toRows b) (a.num_steps - 1) (b.num_steps - 1)
      a.num_dims (toRows_all_zero a haz) (toRows_all_zero b hbz) hdims)

lemma spectrogram_steps_48000 : spectrogram_steps new_zimtohrli 48000 = 85 := by
  have h : ((48000 : ℕ) : ℚ) * new_zimtohrli.perceptual_sample_rate / sample_rate =
      ((85 : ℤ) : ℚ) := by
    norm_num [new_zimtohrli, sample_rate]
  rw [spectrogram_steps, h, round_intCast]
  rfl

/-- C6: analyzing one second of silence (48000 zero samples) yields an
all-zero spectrogram with `max = 0`, and the distance between two such silent
spectrograms is defined and equals 0. -/
theorem silence_analysis_distance :
    Spectrogram.max (analyze new_zimtohrli (List.replicate 48000 0)) = 0 ∧
      distance new_zimtohrli (analyze new_zimtohrli (List.replicate 48000 0))
        (analyze new_zimtohrli (List.replicate 48000 0)) = .ok 0 := by
  have hsteps : (analyze new_zimtohrli (List.replicate 48000 (0 : ℚ))).num_steps = 85 := by
    show spectrogram_steps new_zimtohrli (List.replicate 48000 (0 : ℚ)).length = 85
    rw [List.length_replicate, spectrogram_steps_48000]
  refine ⟨max_eq_zero_of_buffer_zero _ (analyze_silence_buffer _ _), ?_⟩
  apply distance_all_zero
  · rfl
  · rw [hsteps]; norm_num
  · rw [hsteps]; norm_num
  · show num_channels ≠ 0
    norm_num [num_channels]
  · exact analyze_silence_buffer _ _
  · exact analyze_silence_buffer _ _

end Zimtohrli
